import Mathlib

/-!
Verification development for the jsPsych plugin
src/Demos/helpers/plc_display_sizeVar_videoCreate.js.

Each definition below is a shallow embedding of a function or code block of
that file.  Numbers are modelled by the rationals: every quantity the
embedded code computes is obtained from the inputs by field operations,
comparisons, min, max and truncation, so the rational model follows the
JavaScript control flow exactly (IEEE rounding is not modelled).  Random
draws (direction signs, anchor jitter, the initial log scale) are passed in
as explicit arguments, so theorems quantify over all possible draws.
-/

namespace PLC

/-! ### Geometry: calculateClothCenter (source lines 1250-1261)

The source computes, per axis, minimum, maximum and
center = minimum + (maximum - minimum) / 2 of a nonempty coordinate list
via Math.min / Math.max spread over the list. -/

/-- Minimum of a coordinate list, 0 for the empty list (the source never
takes the minimum of an empty list in the paths verified here). -/
def listMin : List ℚ → ℚ
  | [] => 0
  | x :: xs => xs.foldl min x

/-- Maximum of a coordinate list, 0 for the empty list. -/
def listMax : List ℚ → ℚ
  | [] => 0
  | x :: xs => xs.foldl max x

/-- Per-axis center as in calculateClothCenter: minX + clothWidth / 2. -/
def axisCenter (l : List ℚ) : ℚ := listMin l + (listMax l - listMin l) / 2

/-- calculateClothCenter(allX, allY): the pair of per-axis centers. -/
def calculateClothCenter (xs ys : List ℚ) : ℚ × ℚ := (axisCenter xs, axisCenter ys)

/-! ### Per-dot scaled draw position (source lines 999-1001 and 1069-1070)

get_pos = clothCenter + (orig - clothCenter) * scale, used identically in
the hold-mode and blank-mode visible branches. -/

/-- Scaled position about the fixed cloth center. -/
def scaledPos (c scale orig : ℚ) : ℚ := c + (orig - c) * scale

/-- Drawn (and recorded) position of one dot on a visible tick, one axis
(source lines 993-1006 and 1064-1075): in static mode the stored position
at the configured fixed frame, otherwise the scaled position of the stored
position at the display frame index. -/
def drawnPosX (staticFlag : Bool) (cX scale : ℚ) (traj : List ℚ)
    (displayFrameIndex randomFrame : ℕ) : ℚ :=
  if staticFlag then traj.getD randomFrame 0
  else scaledPos cX scale (traj.getD displayFrameIndex 0)

/-! ### SizeController: updateSizeFactor (source lines 767-782)

directionSign is redrawn uniformly on every invocation; it is passed here
as the argument d.  tempScale = logScale + d * logStepBase; if tempScale
leaves [logMin, logMax] the direction is flipped and the flipped step is
applied, otherwise the unflipped step is applied. -/

/-- One step of the bounded log-scale random walk. -/
def updateSizeFactor (logMin logMax logStepBase : ℚ) (d : ℤ) (logScale : ℚ) : ℚ :=
  let tempScale := logScale + d * logStepBase
  if tempScale > logMax ∨ tempScale < logMin then
    logScale + (-d) * logStepBase
  else
    logScale + d * logStepBase

/-! ### Frame index mapping (source lines 909-919 and 949-955)

percent_time = time_elapsed / trial_duration;
rawIndex = parseInt(percent_time * frame_num), with
frame_num - 1 - parseInt(...) under reverse playback; the result is clamped
to [0, frame_num - 1] by Math.max(0, Math.min(_, frame_num - 1)). -/

/-- JavaScript parseInt on a finite number: truncation toward zero. -/
def jsTrunc (q : ℚ) : ℤ := if 0 ≤ q then ⌊q⌋ else -⌊-q⌋

/-- Unclamped frame index from the time fraction p. -/
def frameIndexRaw (reverse : Bool) (frame_num : ℤ) (p : ℚ) : ℤ :=
  if reverse then frame_num - 1 - jsTrunc (p * frame_num) else jsTrunc (p * frame_num)

/-- Clamped frame index from elapsed time. -/
def frameIndex (reverse : Bool) (frame_num : ℤ) (dur elapsed : ℚ) : ℤ :=
  max 0 (min (frameIndexRaw reverse frame_num (elapsed / dur)) (frame_num - 1))

/-! ### ISI duration adjustment at setup (source lines 714-724)

if (isi > 0) and (isiSlows === true) then
trial_duration += (frame_num - 1) * (isi / 1000), executed once. -/

/-- Trial duration after the single ISI setup adjustment. -/
def adjustTrialDuration (trial_duration : ℚ) (frame_num : ℤ) (isi : ℚ)
    (isiSlows : Bool) : ℚ :=
  if 0 < isi then
    if isiSlows then trial_duration + (frame_num - 1) * (isi / 1000)
    else trial_duration
  else trial_duration

end PLC

namespace PLC

/-! ### Helper lemmas for min / max folds -/

theorem foldl_min_map (f : ℚ → ℚ) (hf : ∀ a b : ℚ, f (min a b) = min (f a) (f b)) :
    ∀ (xs : List ℚ) (x : ℚ), (xs.map f).foldl min (f x) = f (xs.foldl min x) := by
  intro xs
  induction xs with
  | nil => intro x; rfl
  | cons y ys ih =>
    intro x
    simp only [List.map_cons, List.foldl_cons, ← hf, ih]

theorem foldl_max_map (f : ℚ → ℚ) (hf : ∀ a b : ℚ, f (max a b) = max (f a) (f b)) :
    ∀ (xs : List ℚ) (x : ℚ), (xs.map f).foldl max (f x) = f (xs.foldl max x) := by
  intro xs
  induction xs with
  | nil => intro x; rfl
  | cons y ys ih =>
    intro x
    simp only [List.map_cons, List.foldl_cons, ← hf, ih]

theorem listMin_map (f : ℚ → ℚ) (hf : ∀ a b : ℚ, f (min a b) = min (f a) (f b))
    (xs : List ℚ) (hx : xs ≠ []) : listMin (xs.map f) = f (listMin xs) := by
  cases xs with
  | nil => exact absurd rfl hx
  | cons y ys => simpa [listMin] using foldl_min_map f hf ys y

theorem listMax_map (f : ℚ → ℚ) (hf : ∀ a b : ℚ, f (max a b) = max (f a) (f b))
    (xs : List ℚ) (hx : xs ≠ []) : listMax (xs.map f) = f (listMax xs) := by
  cases xs with
  | nil => exact absurd rfl hx
  | cons y ys => simpa [listMax] using foldl_max_map f hf ys y

theorem scaledPos_map_min (c s : ℚ) (hs : 0 ≤ s) (a b : ℚ) :
    scaledPos c s (min a b) = min (scaledPos c s a) (scaledPos c s b) := by
  have hmono : Monotone (scaledPos c s) := by
    intro x y hxy
    simp only [scaledPos]
    have := mul_le_mul_of_nonneg_right (sub_le_sub_right hxy c) hs
    linarith
  exact hmono.map_min

theorem scaledPos_map_max (c s : ℚ) (hs : 0 ≤ s) (a b : ℚ) :
    scaledPos c s (max a b) = max (scaledPos c s a) (scaledPos c s b) := by
  have hmono : Monotone (scaledPos c s) := by
    intro x y hxy
    simp only [scaledPos]
    have := mul_le_mul_of_nonneg_right (sub_le_sub_right hxy c) hs
    linarith
  exact hmono.map_max

theorem axisCenter_map_add (xs : List ℚ) (hx : xs ≠ []) (d : ℚ) :
    axisCenter (xs.map (· + d)) = axisCenter xs + d := by
  have hmin : listMin (xs.map (· + d)) = listMin xs + d :=
    listMin_map (· + d) (fun a b => (min_add_add_right a b d).symm) xs hx
  have hmax : listMax (xs.map (· + d)) = listMax xs + d :=
    listMax_map (· + d) (fun a b => (max_add_add_right a b d).symm) xs hx
  simp only [axisCenter, hmin, hmax]
  ring

theorem axisCenter_map_scaledPos (c s : ℚ) (hs : 0 ≤ s) (xs : List ℚ) (hx : xs ≠ []) :
    axisCenter (xs.map (scaledPos c s)) = c + (axisCenter xs - c) * s := by
  have hmin : listMin (xs.map (scaledPos c s)) = scaledPos c s (listMin xs) :=
    listMin_map (scaledPos c s) (scaledPos_map_min c s hs) xs hx
  have hmax : listMax (xs.map (scaledPos c s)) = scaledPos c s (listMax xs) :=
    listMax_map (scaledPos c s) (scaledPos_map_max c s hs) xs hx
  simp only [axisCenter, hmin, hmax, scaledPos]
  ring

end PLC

namespace PLC

/-! ### Claim C1 — SizeController boundary invariant -/

/-- Claim C1 counterexample: with logMin = 0, logMax = 1, logStep = 1
(which satisfies the claimed side condition logStep ≤ logMax - logMin) and
logScale = 3/5 inside the bounds, a single step with direction +1 reflects
to -2/5, strictly below logMin: the claimed invariant fails. -/
theorem updateSizeFactor_overshoot_cex :
    (0 : ℚ) ≤ 3 / 5 ∧ (3 / 5 : ℚ) ≤ 1 ∧ (0 : ℚ) < 1 ∧ (1 : ℚ) ≤ 1 - 0 ∧
    updateSizeFactor 0 1 1 1 (3 / 5) < 0 := by
  refine ⟨by norm_num, by norm_num, by norm_num, by norm_num, ?_⟩
  norm_num [updateSizeFactor]

/-- Claim C1 (amended): each step of updateSizeFactor keeps logScale inside
[logMin, logMax] for every direction draw, provided the step satisfies
2 * logStep ≤ logMax - logMin (the source condition logStep ≤ logMax - logMin
is not sufficient, see the counterexample); hence the linear scale
exp(logScale) stays within [exp logMin, exp logMax] = [minScale, maxScale]. -/
theorem updateSizeFactor_bounds (logMin logMax step s : ℚ) (d : ℤ)
    (hd : d = 1 ∨ d = -1) (hstep : 0 ≤ step) (h2 : 2 * step ≤ logMax - logMin)
    (hlo : logMin ≤ s) (hhi : s ≤ logMax) :
    logMin ≤ updateSizeFactor logMin logMax step d s ∧
    updateSizeFactor logMin logMax step d s ≤ logMax ∧
    Real.exp (logMin : ℝ) ≤ Real.exp ((updateSizeFactor logMin logMax step d s : ℚ) : ℝ) ∧
    Real.exp ((updateSizeFactor logMin logMax step d s : ℚ) : ℝ) ≤ Real.exp (logMax : ℝ) := by
  have hbounds : logMin ≤ updateSizeFactor logMin logMax step d s ∧
      updateSizeFactor logMin logMax step d s ≤ logMax := by
    unfold updateSizeFactor
    rcases hd with rfl | rfl
    · simp only [Int.cast_one]
      split_ifs with h
      · rcases h with h | h
        · constructor <;> linarith
        · constructor <;> linarith
      · push_neg at h
        constructor <;> linarith [h.1, h.2]
    · simp only [Int.cast_neg, Int.cast_one]
      split_ifs with h
      · rcases h with h | h
        · constructor <;> linarith
        · constructor <;> linarith
      · push_neg at h
        constructor <;> linarith [h.1, h.2]
  refine ⟨hbounds.1, hbounds.2, ?_, ?_⟩
  · exact Real.exp_le_exp.mpr (by exact_mod_cast hbounds.1)
  · exact Real.exp_le_exp.mpr (by exact_mod_cast hbounds.2)

/-- Claim C1 witness: concrete instance logMin = 0, logMax = 1, step = 1/2,
logScale = 3/4, direction +1. -/
theorem updateSizeFactor_bounds_witness :
    ((1 : ℤ) = 1 ∨ (1 : ℤ) = -1) ∧ (0 : ℚ) ≤ 1 / 2 ∧
    2 * (1 / 2 : ℚ) ≤ 1 - 0 ∧ (0 : ℚ) ≤ 3 / 4 ∧ (3 / 4 : ℚ) ≤ 1 ∧
    (0 ≤ updateSizeFactor 0 1 (1 / 2) 1 (3 / 4) ∧
     updateSizeFactor 0 1 (1 / 2) 1 (3 / 4) ≤ 1 ∧
     Real.exp ((0 : ℚ) : ℝ) ≤ Real.exp ((updateSizeFactor 0 1 (1 / 2) 1 (3 / 4) : ℚ) : ℝ) ∧
     Real.exp ((updateSizeFactor 0 1 (1 / 2) 1 (3 / 4) : ℚ) : ℝ) ≤ Real.exp ((1 : ℚ) : ℝ)) :=
  ⟨Or.inl rfl, by norm_num, by norm_num, by norm_num, by norm_num,
    updateSizeFactor_bounds 0 1 (1 / 2) (3 / 4) 1 (Or.inl rfl)
      (by norm_num) (by norm_num) (by norm_num) (by norm_num)⟩

/-! ### Claim C7 — ISI setup adjustment of the trial duration -/

/-- Claim C7: with the ISI-extends-duration flag set and a positive gap the
trial duration is increased exactly once by (frame_num - 1) * isi / 1000;
with the flag unset the duration is unchanged. -/
theorem isi_duration_adjust (d0 : ℚ) (n : ℤ) (isi : ℚ) :
    (0 < isi → adjustTrialDuration d0 n isi true = d0 + ((n : ℚ) - 1) * (isi / 1000)) ∧
    adjustTrialDuration d0 n isi false = d0 := by
  constructor
  · intro h
    simp [adjustTrialDuration, h]
  · simp [adjustTrialDuration]

/-- Claim C7 witness: duration 10 s, 5 frames, isi = 100 ms. -/
theorem isi_duration_adjust_witness :
    adjustTrialDuration 10 5 100 true = 10 + (((5 : ℤ) : ℚ) - 1) * (100 / 1000) ∧
    adjustTrialDuration 10 5 100 false = 10 :=
  ⟨(isi_duration_adjust 10 5 100).1 (by norm_num), (isi_duration_adjust 10 5 100).2⟩

/-! ### Claim C4 — frame index mapping: monotonicity and bounds -/

/-- Claim C4: the elapsed-time-to-frame-index mapping is monotone
non-decreasing for forward playback, monotone non-increasing for reverse
playback, and its result lies in [0, frame_num - 1] for every non-negative
elapsed time (frame_num ≥ 1, duration > 0). -/
theorem frameIndex_monotone_bounds (N : ℤ) (dur e1 e2 : ℚ)
    (hN : 1 ≤ N) (hdur : 0 < dur) (h1 : 0 ≤ e1) (h12 : e1 ≤ e2) :
    frameIndex false N dur e1 ≤ frameIndex false N dur e2 ∧
    frameIndex true N dur e2 ≤ frameIndex true N dur e1 ∧
    (0 ≤ frameIndex false N dur e1 ∧ frameIndex false N dur e1 ≤ N - 1) ∧
    (0 ≤ frameIndex true N dur e1 ∧ frameIndex true N dur e1 ≤ N - 1) := by
  have hN0 : (0 : ℚ) ≤ (N : ℚ) := by exact_mod_cast (by omega : (0 : ℤ) ≤ N)
  have h20 : 0 ≤ e2 := le_trans h1 h12
  have hp1 : 0 ≤ e1 / dur * N := mul_nonneg (div_nonneg h1 hdur.le) hN0
  have hp2 : 0 ≤ e2 / dur * N := mul_nonneg (div_nonneg h20 hdur.le) hN0
  have hmul : e1 / dur * N ≤ e2 / dur * N := by gcongr
  have ht1 : jsTrunc (e1 / dur * N) = ⌊e1 / dur * N⌋ := if_pos hp1
  have ht2 : jsTrunc (e2 / dur * N) = ⌊e2 / dur * N⌋ := if_pos hp2
  have hfl : ⌊e1 / dur * N⌋ ≤ ⌊e2 / dur * N⌋ := Int.floor_le_floor hmul
  have hraw1 : frameIndexRaw false N (e1 / dur) = ⌊e1 / dur * N⌋ := by
    simp [frameIndexRaw, ht1]
  have hraw2 : frameIndexRaw false N (e2 / dur) = ⌊e2 / dur * N⌋ := by
    simp [frameIndexRaw, ht2]
  have hrawr1 : frameIndexRaw true N (e1 / dur) = N - 1 - ⌊e1 / dur * N⌋ := by
    simp [frameIndexRaw, ht1]
  have hrawr2 : frameIndexRaw true N (e2 / dur) = N - 1 - ⌊e2 / dur * N⌋ := by
    simp [frameIndexRaw, ht2]
  have hN1 : (0 : ℤ) ≤ N - 1 := by omega
  refine ⟨?_, ?_, ⟨le_max_left _ _, max_le hN1 (min_le_right _ _)⟩,
    ⟨le_max_left _ _, max_le hN1 (min_le_right _ _)⟩⟩
  · unfold frameIndex
    rw [hraw1, hraw2]
    exact max_le_max le_rfl (min_le_min hfl le_rfl)
  · unfold frameIndex
    rw [hrawr1, hrawr2]
    exact max_le_max le_rfl (min_le_min (by omega) le_rfl)

/-- Claim C4 witness: 5 frames, 2 s duration, elapsed times 1 s and 3 s. -/
theorem frameIndex_monotone_bounds_witness :
    frameIndex false 5 2 1 ≤ frameIndex false 5 2 3 ∧
    frameIndex true 5 2 3 ≤ frameIndex true 5 2 1 ∧
    (0 ≤ frameIndex false 5 2 1 ∧ frameIndex false 5 2 1 ≤ 5 - 1) ∧
    (0 ≤ frameIndex true 5 2 1 ∧ frameIndex true 5 2 1 ≤ 5 - 1) :=
  frameIndex_monotone_bounds 5 2 1 3 (by norm_num) (by norm_num) (by norm_num) (by norm_num)

end PLC

namespace PLC

/-! ### Claim C6 — recentering pass (source lines 676-696)

deltaX = screenCenter.x - clothCenterX where clothCenterX is the center of
the FULL cloud at the reference frame (source line 598, computed from allX
of every dot); every position of every selected trajectory is then shifted
by delta, and the center is recomputed from the translated reference-frame
positions of the SELECTED trajectories only. -/

/-- Claim C6 counterexample: full cloud at x (and y) coordinates 0, 1, 10
(center 5), selection the two dots at 0 and 1, target center (7, 7).  The
shift is 7 - 5 = 2, the translated selection is at 2, 3, and the recomputed
center is (5/2, 5/2), not the target (7, 7). -/
theorem recenter_center_cex :
    calculateClothCenter
        (([0, 1] : List ℚ).map (· + (7 - (calculateClothCenter [0, 1, 10] [0, 1, 10]).1)))
        (([0, 1] : List ℚ).map (· + (7 - (calculateClothCenter [0, 1, 10] [0, 1, 10]).2)))
      ≠ (7, 7) := by
  norm_num [calculateClothCenter, axisCenter, listMin, listMax, Prod.mk.injEq]

/-- Claim C6 (amended): after the recentering pass the center recomputed from
the translated selected reference-frame positions equals
target + (selection center - full cloud center); in particular it equals the
target exactly (no floating-point tolerance needed in the rational model)
when the selection center coincides with the full cloud center, e.g. when
every dot is selected. -/
theorem recenter_center_shift (xsSel ysSel xsAll ysAll : List ℚ) (tx ty : ℚ)
    (hx : xsSel ≠ []) (hy : ysSel ≠ []) :
    calculateClothCenter
        (xsSel.map (· + (tx - (calculateClothCenter xsAll ysAll).1)))
        (ysSel.map (· + (ty - (calculateClothCenter xsAll ysAll).2)))
      = (tx + (axisCenter xsSel - axisCenter xsAll),
         ty + (axisCenter ysSel - axisCenter ysAll)) ∧
    (axisCenter xsSel = axisCenter xsAll → axisCenter ysSel = axisCenter ysAll →
      calculateClothCenter
          (xsSel.map (· + (tx - (calculateClothCenter xsAll ysAll).1)))
          (ysSel.map (· + (ty - (calculateClothCenter xsAll ysAll).2)))
        = (tx, ty)) := by
  have h1 : axisCenter (xsSel.map (· + (tx - axisCenter xsAll)))
      = axisCenter xsSel + (tx - axisCenter xsAll) := axisCenter_map_add xsSel hx _
  have h2 : axisCenter (ysSel.map (· + (ty - axisCenter ysAll)))
      = axisCenter ysSel + (ty - axisCenter ysAll) := axisCenter_map_add ysSel hy _
  constructor
  · simp only [calculateClothCenter, h1, h2, Prod.mk.injEq]
    constructor <;> ring
  · intro hcx hcy
    simp only [calculateClothCenter, h1, h2, hcx, hcy, Prod.mk.injEq]
    constructor <;> ring

/-- Claim C6 witness: selection equal to the full cloud, target (7, 7). -/
theorem recenter_center_shift_witness :
    (([0, 1, 10] : List ℚ) ≠ []) ∧
    (calculateClothCenter
        (([0, 1, 10] : List ℚ).map (· + (7 - (calculateClothCenter [0, 1, 10] [0, 1, 10]).1)))
        (([0, 1, 10] : List ℚ).map (· + (7 - (calculateClothCenter [0, 1, 10] [0, 1, 10]).2)))
      = (7 + (axisCenter ([0, 1, 10] : List ℚ) - axisCenter ([0, 1, 10] : List ℚ)),
         7 + (axisCenter ([0, 1, 10] : List ℚ) - axisCenter ([0, 1, 10] : List ℚ)))) :=
  ⟨by simp,
   (recenter_center_shift [0, 1, 10] [0, 1, 10] [0, 1, 10] [0, 1, 10] 7 7
      (by simp) (by simp)).1⟩

/-! ### Claim C9 — scaling about the fixed cloth center -/

/-- Claim C9 counterexample: frame positions 0 and 2 with cloth center 5 and
scale 2 are drawn at -5 and -1; the bounding-box center of the drawn
positions is -3, not the cloth center 5. -/
theorem scaled_bbox_center_cex :
    ([(0 : ℚ), 2].map (scaledPos 5 2)) = [-5, -1] ∧
    axisCenter ([(0 : ℚ), 2].map (scaledPos 5 2)) ≠ 5 := by
  constructor
  · norm_num [scaledPos]
  · norm_num [scaledPos, axisCenter, listMin, listMax]

/-- Claim C9 (amended): each drawn position is clothCenter +
(original - clothCenter) * scale, and the bounding-box center of the drawn
positions equals clothCenter + (frame bounding-box center - clothCenter) *
scale; it therefore equals the cloth center for every scale exactly when the
frame bounding-box center coincides with the cloth center (size scaling is a
homothety fixing the cloth center, not a translation). -/
theorem scaled_bbox_center (c s : ℚ) (xs : List ℚ) (hs : 0 ≤ s) (hx : xs ≠ []) :
    (∀ (traj : List ℚ) (i rf : ℕ),
      drawnPosX false c s traj i rf = scaledPos c s (traj.getD i 0)) ∧
    axisCenter (xs.map (scaledPos c s)) = c + (axisCenter xs - c) * s ∧
    (axisCenter xs = c → axisCenter (xs.map (scaledPos c s)) = c) := by
  refine ⟨fun traj i rf => rfl, axisCenter_map_scaledPos c s hs xs hx, fun hc => ?_⟩
  rw [axisCenter_map_scaledPos c s hs xs hx, hc]
  ring

/-- Claim C9 witness: center 3, scale 1/2, frame positions 0 and 4. -/
theorem scaled_bbox_center_witness :
    ((0 : ℚ) ≤ 1 / 2) ∧
    axisCenter (([0, 4] : List ℚ).map (scaledPos 3 (1 / 2)))
      = 3 + (axisCenter ([0, 4] : List ℚ) - 3) * (1 / 2) :=
  ⟨by norm_num, (scaled_bbox_center 3 (1 / 2) [0, 4] (by norm_num) (by simp)).2.1⟩

/-! ### Claim C10 — static display mode -/

/-- Claim C10: when the static flag is set, the drawn and recorded position
of every dot is the stored trajectory position at the configured fixed frame
index, with no size scaling applied: the output is identical for any two
size-controller scales and any two display frame indices. -/
theorem static_display_invariant (cX s1 s2 : ℚ) (traj : List ℚ) (i1 i2 rf : ℕ) :
    drawnPosX true cX s1 traj i1 rf = traj.getD rf 0 ∧
    drawnPosX true cX s1 traj i1 rf = drawnPosX true cX s2 traj i2 rf :=
  ⟨rfl, rfl⟩

end PLC

namespace PLC

/-! ### Claim C5 — Sampler: grid-based dot selection (source lines 626-665)

For each grid cell, in scan order (x outer loop, y inner loop), the source
builds closestDotIDs = one (id, distance) pair per dot index in input
order, sorts it by distance with the stable Array.prototype.sort, then
walks the sorted list skipping already-selected ids and appends the first
unselected id, subject to the totalSelected >= dotsNeeded guard.  The
jittered anchors are random draws and are passed in as an explicit list,
one per cell in scan order. -/

/-- Squared Euclidean distance from the reference-frame position of dot i
to the anchor.  The source compares Math.sqrt of this quantity; square root
is strictly monotone on nonnegative numbers, so order and ties under the
squared distance coincide with order and ties under the distance itself. -/
def dist2 (dots : List (ℚ × ℚ)) (anchor : ℚ × ℚ) (i : ℕ) : ℚ :=
  ((dots.getD i (0, 0)).1 - anchor.1) ^ 2 + ((dots.getD i (0, 0)).2 - anchor.2) ^ 2

/-- closestDotIDs before sorting: one (id, distance) pair per dot index, in
input order. -/
def keyed (dots : List (ℚ × ℚ)) (anchor : ℚ × ℚ) : List (ℕ × ℚ) :=
  (List.range dots.length).map fun i => (i, dist2 dots anchor i)

/-- Stable insertion by distance: the incoming pair passes over every
already-placed pair whose distance is not larger, so pairs with equal
distances keep their relative insertion order, as the stable
Array.prototype.sort with comparator (a, b) => a.distance - b.distance
keeps input order on ties. -/
def insertKey (x : ℕ × ℚ) : List (ℕ × ℚ) → List (ℕ × ℚ)
  | [] => [x]
  | y :: ys => if x.2 < y.2 then x :: y :: ys else y :: insertKey x ys

/-- Left fold of stable insertions over the input list. -/
def sortKeyAux : List (ℕ × ℚ) → List (ℕ × ℚ) → List (ℕ × ℚ)
  | acc, [] => acc
  | acc, x :: xs => sortKeyAux (insertKey x acc) xs

/-- Stable sort of the (id, distance) list by distance. -/
def sortKey (l : List (ℕ × ℚ)) : List (ℕ × ℚ) := sortKeyAux [] l

/-- Walk of the sorted list: skip pairs whose id is already selected and
return the first unselected pair, if any (the for..of loop with continue
and the added >= dotsPerBin break after one addition). -/
def firstNotMem (sel : List ℕ) : List (ℕ × ℚ) → Option (ℕ × ℚ)
  | [] => none
  | x :: xs => if x.1 ∈ sel then firstNotMem sel xs else some x

/-- Processing of one grid cell: append the nearest unselected dot id,
unless the pool is exhausted or totalSelected has reached dotsNeeded. -/
def selectCell (dots : List (ℚ × ℚ)) (dotsNeeded : ℕ) (sel : List ℕ)
    (anchor : ℚ × ℚ) : List ℕ :=
  match firstNotMem sel (sortKey (keyed dots anchor)) with
  | none => sel
  | some p => if dotsNeeded ≤ sel.length then sel else sel ++ [p.1]

/-- The full grid scan: anchors is the list of jittered cell anchors in
scan order; dotsNeeded = gridX * gridY. -/
def selectedDotIDs (dots : List (ℚ × ℚ)) (anchors : List (ℚ × ℚ))
    (dotsNeeded : ℕ) : List ℕ :=
  anchors.foldl (selectCell dots dotsNeeded) []

/-- Strict order characterising the stable sort output: strictly smaller
distance, or equal distance and smaller id (earlier input order). -/
def lt2 (a b : ℕ × ℚ) : Prop := a.2 < b.2 ∨ (a.2 = b.2 ∧ a.1 < b.1)

theorem insertKey_perm (x : ℕ × ℚ) : ∀ acc, List.Perm (insertKey x acc) (x :: acc)
  | [] => List.Perm.refl _
  | y :: ys => by
    unfold insertKey
    split_ifs with h
    · exact List.Perm.refl _
    · exact ((insertKey_perm x ys).cons y).trans (List.Perm.swap x y ys)

theorem mem_insertKey {z x : ℕ × ℚ} {acc : List (ℕ × ℚ)} :
    z ∈ insertKey x acc ↔ z = x ∨ z ∈ acc := by
  simpa using (insertKey_perm x acc).mem_iff

theorem insertKey_pairwise {x : ℕ × ℚ} : ∀ {acc : List (ℕ × ℚ)},
    acc.Pairwise lt2 → (∀ y ∈ acc, y.1 < x.1) → (insertKey x acc).Pairwise lt2 := by
  intro acc
  induction acc with
  | nil =>
    intro _ _
    simp [insertKey]
  | cons y ys ih =>
    intro hp hx
    rw [List.pairwise_cons] at hp
    unfold insertKey
    split_ifs with h
    · refine List.Pairwise.cons ?_ (List.Pairwise.cons hp.1 hp.2)
      intro z hz
      rcases List.mem_cons.mp hz with rfl | hz
      · exact Or.inl h
      · rcases hp.1 z hz with h2 | h2
        · exact Or.inl (lt_trans h h2)
        · exact Or.inl (h2.1 ▸ h)
    · refine List.Pairwise.cons ?_
        (ih hp.2 fun z hz => hx z (List.mem_cons_of_mem _ hz))
      intro z hz
      rcases mem_insertKey.mp hz with rfl | hz
      · rcases lt_or_eq_of_le (not_lt.mp h) with h2 | h2
        · exact Or.inl h2
        · exact Or.inr ⟨h2, hx y (List.mem_cons_self _ _)⟩
      · exact hp.1 z hz

theorem sortKeyAux_perm : ∀ (l acc : List (ℕ × ℚ)),
    List.Perm (sortKeyAux acc l) (acc ++ l) := by
  intro l
  induction l with
  | nil =>
    intro acc
    simp [sortKeyAux]
  | cons x xs ih =>
    intro acc
    have h1 := ih (insertKey x acc)
    have h2 : List.Perm (insertKey x acc ++ xs) ((x :: acc) ++ xs) :=
      (insertKey_perm x acc).append_right xs
    have h3 : List.Perm ((x :: acc) ++ xs) (acc ++ x :: xs) := by
      simpa using List.perm_middle.symm
    exact (h1.trans h2).trans h3

theorem sortKeyAux_pairwise : ∀ (l acc : List (ℕ × ℚ)),
    acc.Pairwise lt2 → l.Pairwise (fun a b => a.1 < b.1) →
    (∀ y ∈ acc, ∀ z ∈ l, y.1 < z.1) → (sortKeyAux acc l).Pairwise lt2 := by
  intro l
  induction l with
  | nil =>
    intro acc h _ _
    exact h
  | cons x xs ih =>
    intro acc hacc hl hcross
    rw [List.pairwise_cons] at hl
    refine ih (insertKey x acc)
      (insertKey_pairwise hacc fun y hy => hcross y hy x (List.mem_cons_self _ _))
      hl.2 ?_
    intro y hy z hz
    rcases mem_insertKey.mp hy with rfl | hy
    · exact hl.1 z hz
    · exact hcross y hy z (List.mem_cons_of_mem _ hz)

theorem sortKey_perm (l : List (ℕ × ℚ)) : List.Perm (sortKey l) l := by
  simpa [sortKey] using sortKeyAux_perm l []

theorem sortKey_pairwise (l : List (ℕ × ℚ)) (hl : l.Pairwise fun a b => a.1 < b.1) :
    (sortKey l).Pairwise lt2 :=
  sortKeyAux_pairwise l [] List.Pairwise.nil hl (by simp)

theorem keyed_pairwise (dots : List (ℚ × ℚ)) (anchor : ℚ × ℚ) :
    (keyed dots anchor).Pairwise fun a b => a.1 < b.1 := by
  unfold keyed
  rw [List.pairwise_map]
  exact List.pairwise_lt_range dots.length

theorem mem_keyed {dots : List (ℚ × ℚ)} {anchor : ℚ × ℚ} {z : ℕ × ℚ} :
    z ∈ keyed dots anchor ↔ z.1 < dots.length ∧ z.2 = dist2 dots anchor z.1 := by
  unfold keyed
  constructor
  · intro hz
    rcases List.mem_map.mp hz with ⟨i, hi, rfl⟩
    exact ⟨List.mem_range.mp hi, rfl⟩
  · rintro ⟨h1, h2⟩
    rcases z with ⟨a, q⟩
    refine List.mem_map.mpr ⟨a, List.mem_range.mpr h1, ?_⟩
    dsimp only at h2 ⊢
    rw [h2]

theorem firstNotMem_none {sel : List ℕ} : ∀ {l : List (ℕ × ℚ)},
    firstNotMem sel l = none → ∀ q ∈ l, q.1 ∈ sel := by
  intro l
  induction l with
  | nil =>
    intro _ q hq
    cases hq
  | cons x xs ih =>
    intro h q hq
    unfold firstNotMem at h
    split_ifs at h with hx
    rcases List.mem_cons.mp hq with rfl | hq
    · exact hx
    · exact ih h q hq

theorem firstNotMem_some {sel : List ℕ} : ∀ {l : List (ℕ × ℚ)} {p : ℕ × ℚ},
    l.Pairwise lt2 → firstNotMem sel l = some p →
    p ∈ l ∧ p.1 ∉ sel ∧ ∀ q ∈ l, q.1 ∉ sel → q = p ∨ lt2 p q := by
  intro l
  induction l with
  | nil =>
    intro p _ h
    cases h
  | cons x xs ih =>
    intro p hpw h
    rw [List.pairwise_cons] at hpw
    unfold firstNotMem at h
    split_ifs at h with hx
    · obtain ⟨h1, h2, h3⟩ := ih hpw.2 h
      refine ⟨List.mem_cons_of_mem _ h1, h2, ?_⟩
      intro q hq hqsel
      rcases List.mem_cons.mp hq with rfl | hq
      · exact absurd hx hqsel
      · exact h3 q hq hqsel
    · injection h with h
      subst h
      refine ⟨List.mem_cons_self _ _, hx, ?_⟩
      intro q hq hqsel
      rcases List.mem_cons.mp hq with rfl | hq
      · exact Or.inl rfl
      · exact Or.inr (hpw.1 q hq)

end PLC

namespace PLC

theorem selectCell_spec (dots : List (ℚ × ℚ)) (dotsNeeded : ℕ) (sel : List ℕ)
    (anchor : ℚ × ℚ) :
    (selectCell dots dotsNeeded sel anchor = sel ∧
       (dotsNeeded ≤ sel.length ∨ ∀ i, i < dots.length → i ∈ sel)) ∨
    (∃ p, selectCell dots dotsNeeded sel anchor = sel ++ [p] ∧ p < dots.length ∧
       p ∉ sel ∧ sel.length < dotsNeeded ∧
       ∀ q, q < dots.length → q ∉ sel →
         dist2 dots anchor p ≤ dist2 dots anchor q ∧
         (dist2 dots anchor q = dist2 dots anchor p → p ≤ q)) := by
  have hpw : (sortKey (keyed dots anchor)).Pairwise lt2 :=
    sortKey_pairwise _ (keyed_pairwise dots anchor)
  have hperm := sortKey_perm (keyed dots anchor)
  rcases hfn : firstNotMem sel (sortKey (keyed dots anchor)) with _ | p
  · left
    constructor
    · unfold selectCell
      rw [hfn]
    · refine Or.inr fun i hi => ?_
      have hmem : (i, dist2 dots anchor i) ∈ sortKey (keyed dots anchor) :=
        hperm.mem_iff.mpr (mem_keyed.mpr ⟨hi, rfl⟩)
      exact firstNotMem_none hfn _ hmem
  · obtain ⟨hp1, hp2, hp3⟩ := firstNotMem_some hpw hfn
    have hpk := mem_keyed.mp (hperm.mem_iff.mp hp1)
    by_cases hlen : dotsNeeded ≤ sel.length
    · left
      constructor
      · unfold selectCell
        rw [hfn]
        exact if_pos hlen
      · exact Or.inl hlen
    · right
      refine ⟨p.1, ?_, hpk.1, hp2, not_le.mp hlen, ?_⟩
      · unfold selectCell
        rw [hfn]
        exact if_neg hlen
      · intro q hq hqsel
        have hqmem : (q, dist2 dots anchor q) ∈ sortKey (keyed dots anchor) :=
          hperm.mem_iff.mpr (mem_keyed.mpr ⟨hq, rfl⟩)
        rcases hp3 (q, dist2 dots anchor q) hqmem hqsel with heq | hlt
        · subst heq
          exact ⟨le_refl _, fun _ => le_refl _⟩
        · rcases hlt with hlt | hlt
          · rw [← hpk.2]
            exact ⟨le_of_lt hlt, fun he => absurd (he ▸ hlt) (lt_irrefl _)⟩
          · rw [← hpk.2]
            exact ⟨le_of_eq hlt.1, fun _ => le_of_lt hlt.2⟩

end PLC

namespace PLC

theorem selectCell_length_le (dots : List (ℚ × ℚ)) (dotsNeeded : ℕ) (sel : List ℕ)
    (anchor : ℚ × ℚ) :
    (selectCell dots dotsNeeded sel anchor).length ≤ sel.length + 1 := by
  rcases selectCell_spec dots dotsNeeded sel anchor with ⟨he, _⟩ | ⟨p, he, _⟩
  · rw [he]
    omega
  · rw [he]
    simp

theorem selectCell_nodup (dots : List (ℚ × ℚ)) (dotsNeeded : ℕ) (sel : List ℕ)
    (anchor : ℚ × ℚ) (h : sel.Nodup) :
    (selectCell dots dotsNeeded sel anchor).Nodup := by
  rcases selectCell_spec dots dotsNeeded sel anchor with ⟨he, _⟩ | ⟨p, he, _, hp, _⟩
  · rw [he]
    exact h
  · rw [he]
    simp [List.nodup_append, h, hp]

theorem foldl_selectCell_length (dots : List (ℚ × ℚ)) (n : ℕ) :
    ∀ (anchors : List (ℚ × ℚ)) (sel : List ℕ),
      (anchors.foldl (selectCell dots n) sel).length ≤ sel.length + anchors.length := by
  intro anchors
  induction anchors with
  | nil =>
    intro sel
    simp
  | cons a as ih =>
    intro sel
    rw [List.foldl_cons]
    have h1 := ih (selectCell dots n sel a)
    have h2 := selectCell_length_le dots n sel a
    simp only [List.length_cons]
    omega

theorem foldl_selectCell_nodup (dots : List (ℚ × ℚ)) (n : ℕ) :
    ∀ (anchors : List (ℚ × ℚ)) (sel : List ℕ), sel.Nodup →
      (anchors.foldl (selectCell dots n) sel).Nodup := by
  intro anchors
  induction anchors with
  | nil =>
    intro sel h
    exact h
  | cons a as ih =>
    intro sel h
    rw [List.foldl_cons]
    exact ih _ (selectCell_nodup dots n sel a h)

theorem selectedDotIDs_take_succ (dots : List (ℚ × ℚ)) (anchors : List (ℚ × ℚ))
    (n c : ℕ) (hc : c < anchors.length) :
    selectedDotIDs dots (anchors.take (c + 1)) n =
      selectCell dots n (selectedDotIDs dots (anchors.take c) n) (anchors.getD c (0, 0)) := by
  unfold selectedDotIDs
  rw [List.take_succ, getElem?_pos anchors c hc, List.getD_eq_getElem anchors (0, 0) hc]
  rw [Option.toList_some, List.foldl_append, List.foldl_cons, List.foldl_nil]

/-- Claim C5: for every dot cloud, every anchor list (one jittered anchor
per grid cell, in scan order) and dotsNeeded = gridX * gridY, the selection
has at most gridX * gridY entries, no dot id repeats, and each cell in scan
order either finds the pool exhausted (every dot already selected, cell
left unfilled) or appends exactly the unselected dot nearest to its anchor,
ties broken by input order (smallest id). -/
theorem sampler_grid_spec (dots anchors : List (ℚ × ℚ)) (gridX gridY : ℕ)
    (hlen : anchors.length = gridX * gridY) :
    (selectedDotIDs dots anchors (gridX * gridY)).length ≤ gridX * gridY ∧
    (selectedDotIDs dots anchors (gridX * gridY)).Nodup ∧
    (∀ c, c < anchors.length →
      (selectedDotIDs dots (anchors.take (c + 1)) (gridX * gridY) =
          selectedDotIDs dots (anchors.take c) (gridX * gridY) ∧
        ∀ i, i < dots.length → i ∈ selectedDotIDs dots (anchors.take c) (gridX * gridY)) ∨
      (∃ p, selectedDotIDs dots (anchors.take (c + 1)) (gridX * gridY) =
          selectedDotIDs dots (anchors.take c) (gridX * gridY) ++ [p] ∧ p < dots.length ∧
        p ∉ selectedDotIDs dots (anchors.take c) (gridX * gridY) ∧
        ∀ q, q < dots.length → q ∉ selectedDotIDs dots (anchors.take c) (gridX * gridY) →
          dist2 dots (anchors.getD c (0, 0)) p ≤ dist2 dots (anchors.getD c (0, 0)) q ∧
          (dist2 dots (anchors.getD c (0, 0)) q = dist2 dots (anchors.getD c (0, 0)) p →
            p ≤ q))) := by
  refine ⟨?_, foldl_selectCell_nodup dots _ anchors [] List.Pairwise.nil, ?_⟩
  · have h := foldl_selectCell_length dots (gridX * gridY) anchors []
    unfold selectedDotIDs
    simpa [hlen] using h
  · intro c hc
    have hstep := selectedDotIDs_take_succ dots anchors (gridX * gridY) c hc
    have hprevlen : (selectedDotIDs dots (anchors.take c) (gridX * gridY)).length < gridX * gridY := by
      have h1 := foldl_selectCell_length dots (gridX * gridY) (anchors.take c) []
      simp only [List.length_nil] at h1
      have h2 : (anchors.take c).length ≤ c := by
        simp [List.length_take]
      have h3 : c < gridX * gridY := by
        rw [← hlen]
        exact hc
      unfold selectedDotIDs
      omega
    rcases selectCell_spec dots (gridX * gridY)
        (selectedDotIDs dots (anchors.take c) (gridX * gridY)) (anchors.getD c (0, 0)) with
      ⟨he, hcase⟩ | ⟨p, he, h1, h2, _, h4⟩
    · rcases hcase with hge | hall
      · omega
      · left
        exact ⟨by rw [hstep, he], hall⟩
    · right
      exact ⟨p, by rw [hstep, he], h1, h2, h4⟩

/-- Claim C5 witness: two dots at (0, 0) and (1, 0), a single-cell 1 x 1
grid with anchor (0, 0). -/
theorem sampler_grid_spec_witness :
    (selectedDotIDs [((0 : ℚ), (0 : ℚ)), (1, 0)] [((0 : ℚ), (0 : ℚ))] (1 * 1)).length ≤ 1 * 1 ∧
    (selectedDotIDs [((0 : ℚ), (0 : ℚ)), (1, 0)] [((0 : ℚ), (0 : ℚ))] (1 * 1)).Nodup :=
  ⟨(sampler_grid_spec [(0, 0), (1, 0)] [(0, 0)] 1 1 rfl).1,
   (sampler_grid_spec [(0, 0), (1, 0)] [(0, 0)] 1 1 rfl).2.1⟩

end PLC

namespace PLC

/-! ### Claims C2, C3, C8 — the per-tick state machine move_disc
(source lines 881-1134)

One call of move_disc is one display tick.  The performance.now() stamp
and the random direction draw consumed by a potential SizeController step
are passed in as explicit inputs.  Only the state variables and telemetry
columns the claims are about are carried. -/

/-- One telemetry row of csv_frameData, restricted to the columns the
claims concern: scalingFactor and displayFrameNumber (none encodes the
blank sentinel; scalingFactor is null on blank rows). -/
structure Row where
  scalingFactor : Option ℚ
  displayFrameNumber : Option ℤ
  deriving DecidableEq

/-- currentScalingDirection (source line 876): declared as 0 and never
reassigned anywhere in the source, so the value pushed into the
scalingFactor column, currentScalingDirection || 0, is always 0. -/
def currentScalingDirection : ℚ := 0

/-- Trial configuration fields read by move_disc.  rawTrialDuration is the
raw trial.trial_duration option (line 900 checks it under JavaScript
truthiness, so it is skipped when absent); trial_duration is the possibly
ISI-inflated duration variable. -/
structure Config where
  rawTrialDuration : Option ℚ
  trial_duration : ℚ
  frame_num : ℤ
  reversePlayback : Bool
  isiModeHold : Bool
  frameDur : ℚ
  isi : ℚ
  sizeVariation : Bool
  logMin : ℚ
  logMax : ℚ
  logStepBase : ℚ

/-- Mutable state carried across ticks.  sizeSteps is a ghost counter of
updateSizeFactor invocations; rows accumulates csv_frameData. -/
structure TickState where
  lastDisplayedFrameIndex : ℤ
  hasShownVisibleTickForThisFrame : Bool
  currentDisplayFrameStartTime : ℚ
  blankFrameStartTime : ℚ
  logScale : ℚ
  sizeSteps : ℕ
  rows : List Row
  deriving DecidableEq

/-- State at trial start (source lines 845-876). -/
def initState (logScale0 : ℚ) : TickState :=
  { lastDisplayedFrameIndex := -1,
    hasShownVisibleTickForThisFrame := false,
    currentDisplayFrameStartTime := 0,
    blankFrameStartTime := 0,
    logScale := logScale0,
    sizeSteps := 0,
    rows := [] }

/-- Visible telemetry row (source lines 1029-1037 and 1096-1104): the
scalingFactor column receives currentScalingDirection || 0. -/
def visibleRow (s : TickState) : Row :=
  { scalingFactor := some currentScalingDirection,
    displayFrameNumber := some s.lastDisplayedFrameIndex }

/-- Blank telemetry row (source lines 1119-1127). -/
def blankRow : Row := { scalingFactor := none, displayFrameNumber := none }

/-- The early-exit check at source line 900. -/
def rawDurationEnded (cfg : Config) (time_elapsed : ℚ) : Bool :=
  match cfg.rawTrialDuration with
  | some rd => decide (rd ≤ time_elapsed)
  | none => false

/-- The advance block (source lines 947-966): recompute the target index
from the current time fraction, record it, and invoke one SizeController
step exactly when size variation is on and the index changed. -/
def applyAdvance (cfg : Config) (time_elapsed : ℚ) (d : ℤ) (s : TickState) : TickState :=
  let nextIndex := frameIndex cfg.reversePlayback cfg.frame_num cfg.trial_duration time_elapsed
  let previousIndex := s.lastDisplayedFrameIndex
  let s2 := { s with lastDisplayedFrameIndex := nextIndex,
                     hasShownVisibleTickForThisFrame := false }
  if cfg.sizeVariation = true ∧ nextIndex ≠ previousIndex then
    { s2 with logScale := updateSizeFactor cfg.logMin cfg.logMax cfg.logStepBase d s2.logScale,
              sizeSteps := s2.sizeSteps + 1 }
  else s2

/-- The ISI phase logic (source lines 921-944): decide whether an advance
is permitted this tick and perform the associated timer resets. -/
def tickAdvance (cfg : Config) (currentTime time_elapsed : ℚ) (d : ℤ)
    (s : TickState) : TickState :=
  if cfg.isiModeHold then
    if cfg.frameDur ≤ currentTime - s.currentDisplayFrameStartTime then
      applyAdvance cfg time_elapsed d { s with currentDisplayFrameStartTime := currentTime }
    else s
  else
    if s.hasShownVisibleTickForThisFrame then
      if cfg.isi = 0 ∨ cfg.isi ≤ currentTime - s.blankFrameStartTime then
        applyAdvance cfg time_elapsed d
          { s with hasShownVisibleTickForThisFrame := false,
                   currentDisplayFrameStartTime := currentTime }
      else s
    else s

/-- The render-and-record phase (source lines 968-1128): hold mode draws
and records the held index on every tick; blank mode records a visible row
once per frame (starting the blank timer) and a blank row while waiting. -/
def tickRender (cfg : Config) (currentTime : ℚ) (s : TickState) : TickState :=
  if cfg.isiModeHold then
    { s with rows := s.rows ++ [visibleRow s] }
  else if s.hasShownVisibleTickForThisFrame = false then
    { s with rows := s.rows ++ [visibleRow s],
             hasShownVisibleTickForThisFrame := true,
             blankFrameStartTime := currentTime }
  else
    { s with rows := s.rows ++ [blankRow] }

/-- One tick of move_disc: the lastDisplayedFrameIndex === -1
initialisation (lines 886-889), the raw-duration check (line 900), the
running check (line 906), then the advance and render phases. -/
def tick (cfg : Config) (startTime currentTime : ℚ) (d : ℤ) (s0 : TickState) : TickState :=
  let time_elapsed := (currentTime - startTime) / 1000
  let s1 := if s0.lastDisplayedFrameIndex = -1 then
      { s0 with lastDisplayedFrameIndex := 0,
                currentDisplayFrameStartTime := currentTime }
    else s0
  if rawDurationEnded cfg time_elapsed then s1
  else if time_elapsed < cfg.trial_duration then
    tickRender cfg currentTime (tickAdvance cfg currentTime time_elapsed d s1)
  else s1

/-- The tick loop: fold of tick over one (time stamp, direction draw)
input per requestAnimationFrame callback. -/
def runTicks (cfg : Config) (startTime : ℚ) (inputs : List (ℚ × ℤ))
    (s : TickState) : TickState :=
  inputs.foldl (fun st p => tick cfg startTime p.1 p.2 st) s

end PLC

namespace PLC

theorem tickRender_preserves (cfg : Config) (t : ℚ) (s : TickState) :
    (tickRender cfg t s).lastDisplayedFrameIndex = s.lastDisplayedFrameIndex ∧
    (tickRender cfg t s).sizeSteps = s.sizeSteps ∧
    (tickRender cfg t s).logScale = s.logScale := by
  unfold tickRender
  split_ifs <;> exact ⟨rfl, rfl, rfl⟩

theorem applyAdvance_steps (cfg : Config) (e : ℚ) (d : ℤ) (s : TickState)
    (hsv : cfg.sizeVariation = true) :
    ((applyAdvance cfg e d s).lastDisplayedFrameIndex ≠ s.lastDisplayedFrameIndex →
      (applyAdvance cfg e d s).sizeSteps = s.sizeSteps + 1) ∧
    ((applyAdvance cfg e d s).lastDisplayedFrameIndex = s.lastDisplayedFrameIndex →
      (applyAdvance cfg e d s).sizeSteps = s.sizeSteps ∧
      (applyAdvance cfg e d s).logScale = s.logScale) := by
  simp only [applyAdvance]
  split_ifs with h
  · exact ⟨fun _ => rfl, fun habs => absurd habs h.2⟩
  · rcases not_and_or.mp h with h1 | h2
    · exact absurd hsv h1
    · push_neg at h2
      exact ⟨fun hne => absurd h2 hne, fun _ => ⟨rfl, rfl⟩⟩

/-- Claim C3: with size variation enabled and the state initialised, a tick
performs exactly one SizeController step when the displayed frame index
changes during that tick, and no step (leaving the size state untouched,
so only the side-effect-free read of the current scale is used for
drawing) when the displayed index is unchanged, as on held or blank
ticks. -/
theorem tick_sizeStep_iff_indexChange (cfg : Config) (startTime currentTime : ℚ)
    (d : ℤ) (s : TickState) (hsv : cfg.sizeVariation = true)
    (hinit : 0 ≤ s.lastDisplayedFrameIndex) :
    ((tick cfg startTime currentTime d s).lastDisplayedFrameIndex ≠ s.lastDisplayedFrameIndex →
      (tick cfg startTime currentTime d s).sizeSteps = s.sizeSteps + 1) ∧
    ((tick cfg startTime currentTime d s).lastDisplayedFrameIndex = s.lastDisplayedFrameIndex →
      (tick cfg startTime currentTime d s).sizeSteps = s.sizeSteps ∧
      (tick cfg startTime currentTime d s).logScale = s.logScale) := by
  have hne : ¬ s.lastDisplayedFrameIndex = -1 := by omega
  simp only [tick, if_neg hne]
  split_ifs with h1 h2
  · exact ⟨fun h => absurd rfl h, fun _ => ⟨rfl, rfl⟩⟩
  · obtain ⟨hL, hS, hG⟩ :=
      tickRender_preserves cfg currentTime
        (tickAdvance cfg currentTime ((currentTime - startTime) / 1000) d s)
    rw [hL, hS, hG]
    simp only [tickAdvance]
    split_ifs with ha hb hc hd
    · exact applyAdvance_steps cfg _ d _ hsv
    · exact ⟨fun h => absurd rfl h, fun _ => ⟨rfl, rfl⟩⟩
    · exact applyAdvance_steps cfg _ d _ hsv
    · exact ⟨fun h => absurd rfl h, fun _ => ⟨rfl, rfl⟩⟩
    · exact ⟨fun h => absurd rfl h, fun _ => ⟨rfl, rfl⟩⟩
  · exact ⟨fun h => absurd rfl h, fun _ => ⟨rfl, rfl⟩⟩

end PLC

namespace PLC

theorem applyAdvance_hasShown (cfg : Config) (e : ℚ) (d : ℤ) (s : TickState) :
    (applyAdvance cfg e d s).hasShownVisibleTickForThisFrame = false := by
  simp only [applyAdvance]
  split_ifs <;> rfl

theorem applyAdvance_rows (cfg : Config) (e : ℚ) (d : ℤ) (s : TickState) :
    (applyAdvance cfg e d s).rows = s.rows := by
  simp only [applyAdvance]
  split_ifs <;> rfl

theorem tickAdvance_rows (cfg : Config) (t e : ℚ) (d : ℤ) (s : TickState) :
    (tickAdvance cfg t e d s).rows = s.rows := by
  simp only [tickAdvance]
  split_ifs <;> first | rw [applyAdvance_rows] | rfl

theorem tickAdvance_hasShown_isi0 (cfg : Config) (t e : ℚ) (d : ℤ) (s : TickState)
    (hmode : cfg.isiModeHold = false) (hisi : cfg.isi = 0) :
    (tickAdvance cfg t e d s).hasShownVisibleTickForThisFrame = false := by
  simp only [tickAdvance, hmode, Bool.false_eq_true, if_false]
  split_ifs with h1 h2
  · exact applyAdvance_hasShown cfg e d _
  · exact absurd (Or.inl hisi) h2
  · simpa using h1

theorem tick_blank_isi0_rows (cfg : Config) (st t : ℚ) (d : ℤ) (s : TickState)
    (hmode : cfg.isiModeHold = false) (hisi : cfg.isi = 0) :
    (tick cfg st t d s).rows = s.rows ∨
    ∃ i : ℤ, (tick cfg st t d s).rows = s.rows ++
      [{ scalingFactor := some currentScalingDirection, displayFrameNumber := some i }] := by
  simp only [tick]
  split_ifs with h0 h1 h2 h1 h2
  all_goals try exact Or.inl rfl
  · -- initialised this tick, running: render after advance
    set sInit : TickState :=
      { s with lastDisplayedFrameIndex := 0, currentDisplayFrameStartTime := t } with hsInit
    have hns := tickAdvance_hasShown_isi0 cfg t ((t - st) / 1000) d sInit hmode hisi
    have hrows := tickAdvance_rows cfg t ((t - st) / 1000) d sInit
    simp only [tickRender, hmode, Bool.false_eq_true, if_false, hns]
    refine Or.inr ⟨(tickAdvance cfg t ((t - st) / 1000) d sInit).lastDisplayedFrameIndex, ?_⟩
    simp [visibleRow, hrows, hsInit]
  · set sKeep : TickState := s with hsKeep
    have hns := tickAdvance_hasShown_isi0 cfg t ((t - st) / 1000) d sKeep hmode hisi
    have hrows := tickAdvance_rows cfg t ((t - st) / 1000) d sKeep
    simp only [tickRender, hmode, Bool.false_eq_true, if_false, hns]
    refine Or.inr ⟨(tickAdvance cfg t ((t - st) / 1000) d sKeep).lastDisplayedFrameIndex, ?_⟩
    simp [visibleRow, hrows, hsKeep]

/-- Claim C8: in blank ISI mode with gap 0, no blank telemetry row (the
blank sentinel) is recorded on any tick of any run of the tick loop from
the initial state: the zero gap permits the advance on every tick after a
visible one, so every recorded row is a visible row. -/
theorem runTicks_blank_isi0_no_blank (cfg : Config) (startTime logScale0 : ℚ)
    (inputs : List (ℚ × ℤ)) (hmode : cfg.isiModeHold = false) (hisi : cfg.isi = 0) :
    ∀ r ∈ (runTicks cfg startTime inputs (initState logScale0)).rows,
      r.displayFrameNumber ≠ none := by
  have key : ∀ (l : List (ℚ × ℤ)) (s : TickState),
      (∀ r ∈ s.rows, r.displayFrameNumber ≠ none) →
      ∀ r ∈ (runTicks cfg startTime l s).rows, r.displayFrameNumber ≠ none := by
    intro l
    induction l with
    | nil =>
      intro s h
      exact h
    | cons p ps ih =>
      intro s h
      have hstep : runTicks cfg startTime (p :: ps) s =
          runTicks cfg startTime ps (tick cfg startTime p.1 p.2 s) := rfl
      rw [hstep]
      refine ih _ ?_
      intro r hr
      rcases tick_blank_isi0_rows cfg startTime p.1 p.2 s hmode hisi with he | ⟨i, he⟩
      · rw [he] at hr
        exact h r hr
      · rw [he] at hr
        rcases List.mem_append.mp hr with hr | hr
        · exact h r hr
        · rw [List.mem_singleton.mp hr]
          simp
  exact key inputs (initState logScale0) (by intro r hr; cases hr)

end PLC

namespace PLC

/-- Blank-mode configuration with gap 0 and size variation enabled, used
in concrete evaluations. -/
def cfgB : Config :=
  { rawTrialDuration := none,
    trial_duration := 10,
    frame_num := 5,
    reversePlayback := false,
    isiModeHold := false,
    frameDur := 100,
    isi := 0,
    sizeVariation := true,
    logMin := 0,
    logMax := 1,
    logStepBase := 1 / 4 }

/-- Hold-mode configuration with size variation disabled, used in concrete
evaluations. -/
def cfgH : Config :=
  { rawTrialDuration := none,
    trial_duration := 10,
    frame_num := 5,
    reversePlayback := false,
    isiModeHold := true,
    frameDur := 100,
    isi := 0,
    sizeVariation := false,
    logMin := 0,
    logMax := 1,
    logStepBase := 1 / 4 }

/-- An already-initialised tick state used in concrete evaluations. -/
def stW : TickState :=
  { lastDisplayedFrameIndex := 0,
    hasShownVisibleTickForThisFrame := false,
    currentDisplayFrameStartTime := 0,
    blankFrameStartTime := 0,
    logScale := 1 / 2,
    sizeSteps := 0,
    rows := [] }

/-- Claim C2 (code bug): on a visible tick the scalingFactor column of the
telemetry receives currentScalingDirection || 0, where
currentScalingDirection is initialised to 0 and never reassigned, so the
recorded value is 0 — not the current linear scale, and in particular not
1 when size variation is disabled.  Concrete evaluation: one hold-mode
tick with size variation disabled records scalingFactor 0. -/
theorem csv_scalingFactor_zero :
    (tick cfgH 0 0 1 (initState 0)).rows =
      [{ scalingFactor := some 0, displayFrameNumber := some 0 }] ∧
    some (0 : ℚ) ≠ some (1 : ℚ) := by
  constructor
  · norm_num [tick, tickAdvance, tickRender, rawDurationEnded, initState, cfgH,
      visibleRow, currentScalingDirection]
  · simp

/-- Claim C3 witness: one blank-mode tick from the initialised state. -/
theorem tick_sizeStep_iff_indexChange_witness :
    cfgB.sizeVariation = true ∧ (0 : ℤ) ≤ stW.lastDisplayedFrameIndex ∧
    (((tick cfgB 0 0 1 stW).lastDisplayedFrameIndex ≠ stW.lastDisplayedFrameIndex →
       (tick cfgB 0 0 1 stW).sizeSteps = stW.sizeSteps + 1) ∧
     ((tick cfgB 0 0 1 stW).lastDisplayedFrameIndex = stW.lastDisplayedFrameIndex →
       (tick cfgB 0 0 1 stW).sizeSteps = stW.sizeSteps ∧
       (tick cfgB 0 0 1 stW).logScale = stW.logScale)) :=
  ⟨rfl, by norm_num [stW],
   tick_sizeStep_iff_indexChange cfgB 0 0 1 stW rfl (by norm_num [stW])⟩

/-- Claim C8 witness: a two-tick blank-mode run with gap 0; the row it
recorded is visible, as the theorem guarantees for every recorded row. -/
theorem runTicks_blank_isi0_no_blank_witness :
    ({ scalingFactor := some 0, displayFrameNumber := some 0 } : Row) ∈
      (runTicks cfgB 0 [(0, 1)] (initState 0)).rows ∧
    ({ scalingFactor := some 0, displayFrameNumber := some 0 } : Row).displayFrameNumber ≠ none :=
  ⟨by norm_num [runTicks, tick, tickAdvance, tickRender, rawDurationEnded, initState,
      cfgB, visibleRow, currentScalingDirection],
   runTicks_blank_isi0_no_blank cfgB 0 0 [(0, 1)] rfl rfl
     { scalingFactor := some 0, displayFrameNumber := some 0 }
     (by norm_num [runTicks, tick, tickAdvance, tickRender, rawDurationEnded, initState,
        cfgB, visibleRow, currentScalingDirection])⟩

end PLC
